import Mathlib

/-!
Shallow embedding of `bluesky-list-processor.py`.

The Python source uses `urllib.parse.urlparse`, `str.split`, `str.startswith`
and the `in` substring operator; those library operations are modelled here at
the `List Char` level with the same observable semantics on the inputs the
program handles.  The external `atproto` client (login, handle resolution,
feed read, list read, block/mute submission, `asyncio.sleep`) is modelled as
data passed in (responses) and as an event trace recording the calls the
program makes.
-/

namespace BlueskyListProcessor

/-- Model of Python `s.startswith(p)`: `p` is a prefix of `s`. -/
def startswith (s p : String) : Bool :=
  p.toList.isPrefixOf s.toList

/-- Substring search on character lists: Python's `sub in s` operator. -/
def containsSub (sub : List Char) : List Char → Bool
  | [] => sub.isEmpty
  | c :: rest => sub.isPrefixOf (c :: rest) || containsSub sub rest

/-- Model of Python `sub in s` for strings. -/
def containsSubstr (s sub : String) : Bool :=
  containsSub sub.toList s.toList

/-- Split a character list at the first occurrence of `sep`, if any,
returning the parts before and after it. -/
def splitFirst (sep : Char) : List Char → Option (List Char × List Char)
  | [] => none
  | c :: rest =>
    if c = sep then some ([], rest)
    else (splitFirst sep rest).map (fun p => (c :: p.1, p.2))

/-- Model of Python `str.split(sep)` for a single-character separator:
splits at every occurrence, keeping empty pieces. -/
def splitOnChar (sep : Char) : List Char → List (List Char)
  | [] => [[]]
  | c :: rest =>
    let r := splitOnChar sep rest
    if c = sep then [] :: r
    else
      match r with
      | h :: t => (c :: h) :: t
      | [] => [[c]]

/-- Characters allowed in a URL scheme after the first letter
(`urllib.parse.scheme_chars`). -/
def schemeChar (c : Char) : Bool :=
  c.isAlphanum || c == '+' || c == '-' || c == '.'

/-- The fields of `urllib.parse.urlparse` that the program reads. -/
structure UrlParts where
  scheme : String
  netloc : String
  path : String
deriving DecidableEq, Repr

/-- Model of `urllib.parse.urlparse` restricted to the fields the program
uses: the scheme is split off at the first `:` when the part before it is a
valid scheme, the netloc follows `//` up to the next `/`, `?` or `#`, and the
path is what remains before any query or fragment. -/
def urlparse (url : String) : UrlParts :=
  let cs := url.toList
  let (scheme, rest) :=
    match splitFirst ':' cs with
    | some (before, after) =>
      match before with
      | [] => (([] : List Char), cs)
      | b :: bs =>
        if b.isAlpha && (b :: bs).all schemeChar then (b :: bs, after)
        else ([], cs)
    | none => ([], cs)
  let (netloc, rest2) :=
    match rest with
    | '/' :: '/' :: r =>
      (r.takeWhile (fun c => c != '/' && c != '?' && c != '#'),
       r.dropWhile (fun c => c != '/' && c != '?' && c != '#'))
    | _ => ([], rest)
  let path := (rest2.takeWhile (· != '#')).takeWhile (· != '?')
  ⟨String.mk (scheme.map Char.toLower), String.mk netloc, String.mk path⟩

/-- The non-empty path segments:
`[p for p in parsed.path.split('/') if p]` in the source. -/
def pathParts (path : String) : List String :=
  ((splitOnChar '/' path.toList).map String.mk).filter (fun p => p ≠ "")

/-- Outcome of `convert_url_to_at_uri`: a returned AT URI string, the
`(handle, list_name, record_type)` tuple for a handle that still needs
resolution, or a raised `ValueError` with its message. -/
inductive ConvertResult where
  | atUri (uri : String)
  | needsResolution (handle list_name record_type : String)
  | valueError (msg : String)
deriving DecidableEq, Repr

/-- The AT URI built by the f-string
`f"at://{identifier}/{record_type}/{list_name}"`. -/
def mkAtUri (identifier record_type list_name : String) : String :=
  "at://" ++ (identifier ++ ("/" ++ (record_type ++ ("/" ++ list_name))))

/-- The body of `convert_url_to_at_uri` from the path-shape check on:
`if len(parts) < 4 or parts[0] != 'profile'` raises, otherwise segments 2-4
are read (`parts[1]`, `parts[2]`, `parts[3]`), the record type is chosen
from segment 3, and segment 2 is checked for the `did:` prefix. -/
def convertParts (parts : List String) : ConvertResult :=
  if parts.length < 4 ∨ parts.getD 0 "" ≠ "profile" then
    ConvertResult.valueError "Not a valid Bluesky feed URL"
  else
    match (if parts.getD 2 "" = "feed" then some "app.bsky.feed.generator"
           else if parts.getD 2 "" = "lists" then some "app.bsky.graph.list"
           else none : Option String) with
    | none => ConvertResult.valueError ("Unknown feed type: " ++ parts.getD 2 "")
    | some rt =>
      if startswith (parts.getD 1 "") "did:" then
        ConvertResult.atUri (mkAtUri (parts.getD 1 "") rt (parts.getD 3 ""))
      else
        ConvertResult.needsResolution (parts.getD 1 "") (parts.getD 3 "") rt

/-- Embedding of `convert_url_to_at_uri` from the source: fast path for
`at://` inputs, host check against the literal `bsky.app`, then the
path-segment logic of `convertParts`. -/
def convert_url_to_at_uri (url : String) : ConvertResult :=
  if startswith url "at://" then ConvertResult.atUri url
  else if (urlparse url).netloc ≠ "bsky.app" then
    ConvertResult.valueError "Not a valid Bluesky URL"
  else convertParts (pathParts (urlparse url).path)

/-- Hexadecimal digit value, as used by percent-decoding. -/
def hexDigit (c : Char) : Option Nat :=
  if '0' ≤ c ∧ c ≤ '9' then some (c.toNat - '0'.toNat)
  else if 'a' ≤ c ∧ c ≤ 'f' then some (c.toNat - 'a'.toNat + 10)
  else if 'A' ≤ c ∧ c ≤ 'F' then some (c.toNat - 'A'.toNat + 10)
  else none

/-- Modelled from the spec: decode one piece that followed a `%` — its first
two characters as a hex byte when valid, otherwise the literal `%` is kept.
The source imports `unquote` but never calls it; this model exists only to
state what the spec asserts about decoding, for comparison with what the
code actually produces. -/
def pctDecodePiece (piece : List Char) : List Char :=
  match piece with
  | a :: b :: rest =>
    match hexDigit a, hexDigit b with
    | some hi, some lo => Char.ofNat (16 * hi + lo) :: rest
    | _, _ => '%' :: piece
  | _ => '%' :: piece

/-- Modelled from the spec: percent-decode a character list the way
`urllib.parse.unquote` does — split on `%` and decode the two hex digits at
the head of each following piece, leaving invalid escapes untouched. -/
def pctDecodeChars (cs : List Char) : List Char :=
  match splitOnChar '%' cs with
  | [] => []
  | first :: pieces => first ++ (pieces.map pctDecodePiece).flatten

/-- Modelled from the spec: percent-decoding on strings. -/
def pctDecode (s : String) : String :=
  String.mk (pctDecodeChars s.toList)

/-- One user record `{'did': ..., 'handle': ...}`. -/
structure UserRec where
  did : String
  handle : String
deriving DecidableEq, Repr

/-- One step of the `for item in response.feed` loop in `get_feed_users`:
an item whose post exposes an author contributes its `(did, handle)` pair to
the set `users`; items without author metadata are skipped.  The CPython
`set` is modelled as a duplicate-free list; iteration order of a `set` is
unspecified, so the model fixes insertion order — every property proved
about it is order-independent. -/
def addAuthor (users : List UserRec) (item : Option UserRec) : List UserRec :=
  match item with
  | none => users
  | some u => if u ∈ users then users else users ++ [u]

/-- Embedding of `get_feed_users`: the feed response is the list of items,
each either `some` author `(did, handle)` pair or `none` when the item lacks
the `author` attribute. -/
def get_feed_users (feedResp : List (Option UserRec)) : List UserRec :=
  feedResp.foldl addAuthor []

/-- The `--action` choice. -/
inductive Action where
  | block
  | mute
deriving DecidableEq, Repr

/-- External calls and pauses made by `process_list`, in order. -/
inductive Event where
  | resolveHandle (handle : String)
  | getFeedCall (uri : String) (limit : Nat)
  | getListCall (uri : String)
  | writeFile (path : String) (users : List UserRec)
  | blockCall (subjectDid : String)
  | muteCall (actorDid : String)
  | sleep
deriving DecidableEq, Repr

/-- The remote call a per-user attempt makes:
`client.app.bsky.graph.block.create` names the target DID as subject,
`client.app.bsky.actor.mute_actor` names the target DID as actor. -/
def attemptEv (action : Action) (u : UserRec) : Event :=
  match action with
  | Action.block => Event.blockCall u.did
  | Action.mute => Event.muteCall u.did

/-- Test for a block or mute submission event. -/
def isActionCall : Event → Bool
  | Event.blockCall _ => true
  | Event.muteCall _ => true
  | _ => false

/-- Test for a handle-resolution call event. -/
def isResolveCall : Event → Bool
  | Event.resolveHandle _ => true
  | _ => false

/-- Result of the action loop: its event trace and the two counters. -/
structure LoopResult where
  trace : List Event
  processed : Nat
  errors : Nat
deriving DecidableEq, Repr

/-- Embedding of the `for user in users` loop of `process_list`.  Each user
is paired with whether its remote call succeeds.  On success the counter
`processed` is incremented and `await asyncio.sleep(0.5)` runs — the sleep
sits inside the `try`, after the action.  On failure the exception skips the
sleep, `errors` is incremented, and the loop continues with the next user. -/
def processUsersLoop (action : Action) : List (UserRec × Bool) → LoopResult
  | [] => ⟨[], 0, 0⟩
  | (u, ok) :: rest =>
    let r := processUsersLoop action rest
    if ok then ⟨attemptEv action u :: Event.sleep :: r.trace, r.processed + 1, r.errors⟩
    else ⟨attemptEv action u :: r.trace, r.processed, r.errors + 1⟩

/-- Dispatch used by `process_list`: `if 'feed.generator' in list_uri`. -/
def enumDispatchIsFeed (uri : String) : Bool :=
  containsSubstr uri "feed.generator"

/-- The users `process_list` enumerates for a URI: the deduplicated feed
authors when the URI contains `feed.generator`, otherwise the list
membership subjects mapped one-to-one. -/
def enumUsers (uri : String) (feedResp : List (Option UserRec))
    (listResp : List UserRec) : List UserRec :=
  if enumDispatchIsFeed uri then get_feed_users feedResp else listResp

/-- How a run of `process_list` ends: an exception caught by the outer
`try` (printed and swallowed), the dry-run early return, or the final
`processed`/`errors` report. -/
inductive RunResult where
  | aborted (msg : String)
  | dryRunDone
  | completed (processed errors : Nat)
deriving DecidableEq, Repr

/-- The part of `process_list` after the URI is known: enumerate users,
write the output file (opened with mode `w`, truncating any prior content),
then either return under `--dry-run` or run the action loop. -/
def pipelineFromUri (uri : String) (pre : List Event)
    (feedResp : List (Option UserRec)) (listResp : List UserRec)
    (action : Action) (dry_run : Bool) (output_file : String) (limit : Nat)
    (outcomes : Nat → Bool) : List Event × RunResult :=
  let users := enumUsers uri feedResp listResp
  let enumEv :=
    if enumDispatchIsFeed uri then Event.getFeedCall uri limit
    else Event.getListCall uri
  let evs := pre ++ [enumEv, Event.writeFile output_file users]
  if dry_run then (evs, RunResult.dryRunDone)
  else
    let r := processUsersLoop action (users.enum.map (fun p => (p.2, outcomes p.1)))
    (evs ++ r.trace, RunResult.completed r.processed r.errors)

/-- Embedding of `process_list` (after login): convert the input, resolve
the handle remotely when conversion returned a tuple, then run the rest of
the pipeline.  A `ValueError` from conversion is caught by the outer
`try`/`except`, which prints the message and returns.  External behaviour is
a parameter: `resolveDid` models `com.atproto.identity.resolve_handle`,
`feedResp`/`listResp` model the two read responses, and `outcomes i` says
whether the attempt for the `i`-th user succeeds. -/
def process_list (list_input : String) (resolveDid : String → String)
    (feedResp : List (Option UserRec)) (listResp : List UserRec)
    (action : Action) (dry_run : Bool) (output_file : String) (limit : Nat)
    (outcomes : Nat → Bool) : List Event × RunResult :=
  match convert_url_to_at_uri list_input with
  | ConvertResult.valueError msg => ([], RunResult.aborted msg)
  | ConvertResult.atUri uri =>
    pipelineFromUri uri [] feedResp listResp action dry_run output_file limit outcomes
  | ConvertResult.needsResolution handle list_name record_type =>
    pipelineFromUri (mkAtUri (resolveDid handle) record_type list_name)
      [Event.resolveHandle handle] feedResp listResp action dry_run output_file
      limit outcomes

/-- Test for the `ValueError` constructor of a conversion result. -/
def isValueError : ConvertResult → Bool
  | ConvertResult.valueError _ => true
  | _ => false

/-- A trace in which no two attempt events are adjacent: between any two
consecutive per-user attempts some other event (the pause) intervenes.
This is the weakest reading of the claimed unconditional inter-attempt
pause. -/
def noAdjacentAttempts : List Event → Bool
  | e1 :: e2 :: rest =>
    !(isActionCall e1 && isActionCall e2) && noAdjacentAttempts (e2 :: rest)
  | _ => true

/-! ### Helper lemmas -/

theorem isPrefixOf_append_self (l t : List Char) : l.isPrefixOf (l ++ t) = true := by
  induction l with
  | nil => cases t <;> rfl
  | cons c cs ih => simp [List.isPrefixOf, ih]

theorem startswith_mkAtUri (identifier record_type list_name : String) :
    startswith (mkAtUri identifier record_type list_name) "at://" = true := by
  simp [ startswith, mkAtUri, String.toList, isPrefixOf_append_self]

theorem containsSub_append_left (sub x l : List Char)
    (h : containsSub sub l = true) : containsSub sub (x ++ l) = true := by
  induction x with
  | nil => simpa using h
  | cons c cs ih =>
    simp only [List.cons_append, containsSub, Bool.or_eq_true]
    exact Or.inr ih

theorem containsSubstr_mkAtUri (identifier record_type list_name sub : String)
    (h : containsSubstr list_name sub = true) :
    containsSubstr (mkAtUri identifier record_type list_name) sub = true := by
  simp only [containsSubstr, mkAtUri, String.toList, String.data_append] at *
  exact containsSub_append_left _ _ _ (containsSub_append_left _ _ _
    (containsSub_append_left _ _ _ (containsSub_append_left _ _ _
      (containsSub_append_left _ _ _ h))))

theorem convertParts_cons (identifier feed_type list_name : String)
    (rest : List String) :
    convertParts ("profile" :: identifier :: feed_type :: list_name :: rest) =
      match (if feed_type = "feed" then some "app.bsky.feed.generator"
             else if feed_type = "lists" then some "app.bsky.graph.list"
             else none : Option String) with
      | none => ConvertResult.valueError ("Unknown feed type: " ++ feed_type)
      | some rt =>
        if startswith identifier "did:" then
          ConvertResult.atUri (mkAtUri identifier rt list_name)
        else
          ConvertResult.needsResolution identifier list_name rt := by
  simp [convertParts, List.getD]

theorem convertParts_short (parts : List String)
    (h : parts.length < 4 ∨ parts.getD 0 "" ≠ "profile") :
    convertParts parts = ConvertResult.valueError "Not a valid Bluesky feed URL" := by
  unfold convertParts
  rw [if_pos h]

theorem isActionCall_attemptEv (a : Action) (u : UserRec) :
    isActionCall (attemptEv a u) = true := by
  cases a <;> rfl

theorem isResolveCall_attemptEv (a : Action) (u : UserRec) :
    isResolveCall (attemptEv a u) = false := by
  cases a <;> rfl

theorem processUsersLoop_counts (a : Action) (l : List (UserRec × Bool)) :
    (processUsersLoop a l).processed = (l.filter (fun pu => pu.2)).length ∧
    (processUsersLoop a l).errors = (l.filter (fun pu => !pu.2)).length := by
  induction l with
  | nil => simp [processUsersLoop]
  | cons hd tl ih =>
    obtain ⟨u, ok⟩ := hd
    cases ok <;> simp [processUsersLoop, ih.1, ih.2]

theorem processUsersLoop_total (a : Action) (l : List (UserRec × Bool)) :
    (processUsersLoop a l).processed + (processUsersLoop a l).errors = l.length := by
  induction l with
  | nil => rfl
  | cons hd tl ih =>
    obtain ⟨u, ok⟩ := hd
    cases ok <;> simp [processUsersLoop] <;> omega

theorem processUsersLoop_attempted (a : Action) (l : List (UserRec × Bool)) :
    ∀ pu ∈ l, attemptEv a pu.1 ∈ (processUsersLoop a l).trace := by
  induction l with
  | nil => simp
  | cons hd tl ih =>
    intro pu hpu
    obtain ⟨u, ok⟩ := hd
    rcases List.mem_cons.mp hpu with h | h
    · subst h; cases ok <;> simp [processUsersLoop]
    · have := ih pu h
      cases ok <;> simp [processUsersLoop, List.mem_cons] <;> tauto

theorem processUsersLoop_no_resolve (a : Action) (l : List (UserRec × Bool)) :
    ∀ e ∈ (processUsersLoop a l).trace, isResolveCall e = false := by
  induction l with
  | nil => simp [processUsersLoop]
  | cons hd tl ih =>
    intro e he
    obtain ⟨u, ok⟩ := hd
    cases ok
    · simp [processUsersLoop, List.mem_cons] at he
      rcases he with h | h
      · subst h; exact isResolveCall_attemptEv a u
      · exact ih e h
    · simp [processUsersLoop, List.mem_cons] at he
      rcases he with h | h
      · subst h; exact isResolveCall_attemptEv a u
      · rcases h with h | h
        · subst h; rfl
        · exact ih e h

theorem addAuthor_nodup (users : List UserRec) (item : Option UserRec)
    (h : users.Nodup) : (addAuthor users item).Nodup := by
  cases item with
  | none => exact h
  | some u =>
    by_cases hu : u ∈ users
    · simpa [addAuthor, hu] using h
    · simp [addAuthor, hu, List.nodup_append, h]

theorem addAuthor_length (users : List UserRec) (item : Option UserRec) :
    (addAuthor users item).length ≤ users.length + 1 := by
  cases item with
  | none => simp [addAuthor]
  | some u => by_cases hu : u ∈ users <;> simp [addAuthor, hu]

theorem foldl_addAuthor_nodup (feed : List (Option UserRec)) :
    ∀ acc : List UserRec, acc.Nodup → (feed.foldl addAuthor acc).Nodup := by
  induction feed with
  | nil => intro acc h; exact h
  | cons i rest ih => intro acc h; exact ih _ (addAuthor_nodup acc i h)

theorem foldl_addAuthor_length (feed : List (Option UserRec)) :
    ∀ acc : List UserRec,
      (List.foldl addAuthor acc feed).length ≤ acc.length + feed.length := by
  induction feed with
  | nil => intro acc; simp
  | cons i rest ih =>
    intro acc
    have h1 := ih (addAuthor acc i)
    have h2 := addAuthor_length acc i
    simp only [List.foldl_cons, List.length_cons]
    omega

theorem pipelineFromUri_dry_run (uri : String) (pre : List Event)
    (feedResp : List (Option UserRec)) (listResp : List UserRec)
    (action : Action) (output_file : String) (limit : Nat) (outcomes : Nat → Bool)
    (hpre : ∀ e ∈ pre, isActionCall e = false) :
    (pipelineFromUri uri pre feedResp listResp action true output_file limit
        outcomes).2 = RunResult.dryRunDone
    ∧ Event.writeFile output_file (enumUsers uri feedResp listResp)
        ∈ (pipelineFromUri uri pre feedResp listResp action true output_file
            limit outcomes).1
    ∧ ∀ e ∈ (pipelineFromUri uri pre feedResp listResp action true output_file
        limit outcomes).1, isActionCall e = false := by
  refine ⟨rfl, ?_, ?_⟩
  · simp [pipelineFromUri]
  · intro e he
    simp only [pipelineFromUri, if_true, List.mem_append, List.mem_cons,
      List.mem_singleton, List.not_mem_nil, or_false] at he
    rcases he with h | h | h
    · exact hpre e h
    · subst h
      by_cases hf : enumDispatchIsFeed uri = true
      · simp [hf, isActionCall]
      · simp [Bool.not_eq_true] at hf
        simp [hf, isActionCall]
    · subst h; rfl

theorem pipelineFromUri_no_resolve (uri : String) (pre : List Event)
    (feedResp : List (Option UserRec)) (listResp : List UserRec)
    (action : Action) (dry_run : Bool) (output_file : String) (limit : Nat)
    (outcomes : Nat → Bool)
    (hpre : ∀ e ∈ pre, isResolveCall e = false) :
    ∀ e ∈ (pipelineFromUri uri pre feedResp listResp action dry_run output_file
        limit outcomes).1, isResolveCall e = false := by
  intro e he
  have henum : ∀ ev, (ev = (if enumDispatchIsFeed uri then Event.getFeedCall uri limit
      else Event.getListCall uri)) → isResolveCall ev = false := by
    intro ev hev
    by_cases hf : enumDispatchIsFeed uri = true
    · simp [hf] at hev; subst hev; rfl
    · simp [Bool.not_eq_true] at hf
      simp [hf] at hev; subst hev; rfl
  cases dry_run
  · simp only [pipelineFromUri, if_false, Bool.false_eq_true, List.mem_append,
      List.mem_cons, List.mem_singleton, List.not_mem_nil, or_false] at he
    rcases he with (h | h | h) | h
    · exact hpre e h
    · exact henum e h
    · subst h; rfl
    · exact processUsersLoop_no_resolve action _ e h
  · simp only [pipelineFromUri, if_true, List.mem_append, List.mem_cons,
      List.mem_singleton, List.not_mem_nil, or_false] at he
    rcases he with h | h | h
    · exact hpre e h
    · exact henum e h
    · subst h; rfl

theorem convert_atUri_starts (s r : String)
    (h : convert_url_to_at_uri s = ConvertResult.atUri r) :
    startswith r "at://" = true := by
  unfold convert_url_to_at_uri at h
  split at h
  · injection h with h'
    subst h'
    assumption
  · split at h
    · simp at h
    · unfold convertParts at h
      split at h
      · simp at h
      · split at h
        · simp at h
        · split at h
          · injection h with h'
            subst h'
            exact startswith_mkAtUri _ _ _
          · simp at h

/-! ### Claim theorems -/

/-- C1, counterexample: `get_feed_users` deduplicates on the
`(did, handle)` pair, not on the stable id alone — a feed whose two items
repeat the author DID under two different handles yields two records with
the same stable id, refuting the claim that the returned sequence never
contains two `UserRecord`s with the same `stableId`. -/
theorem feed_dedup_counterexample :
    get_feed_users [some ⟨"did:plc:dup", "alice.one"⟩,
        some ⟨"did:plc:dup", "alice.two"⟩]
      = [⟨"did:plc:dup", "alice.one"⟩, ⟨"did:plc:dup", "alice.two"⟩]
    ∧ ¬ ((get_feed_users [some ⟨"did:plc:dup", "alice.one"⟩,
        some ⟨"did:plc:dup", "alice.two"⟩]).map UserRec.did).Nodup := by
  exact ⟨by decide, by decide⟩

/-- C1, amended: feed enumeration returns no two records equal in both
stable id and handle (the deduplicating set is keyed on the
`(did, handle)` pair), and when the feed response holds at most `limit`
items the returned sequence has length at most `limit`. -/
theorem feed_dedup_amended (feedResp : List (Option UserRec)) (limit : Nat)
    (h : feedResp.length ≤ limit) :
    (get_feed_users feedResp).Nodup ∧ (get_feed_users feedResp).length ≤ limit := by
  constructor
  · unfold get_feed_users
    exact foldl_addAuthor_nodup feedResp [] List.nodup_nil
  · unfold get_feed_users
    have := foldl_addAuthor_length feedResp []
    simp at this
    omega

/-- C1, witness for the amended theorem at a concrete feed response. -/
theorem feed_dedup_amended_witness :
    (get_feed_users [some ⟨"did:plc:a", "a.test"⟩, some ⟨"did:plc:a", "a.test"⟩,
        some ⟨"did:plc:b", "b.test"⟩, none]).Nodup
    ∧ (get_feed_users [some ⟨"did:plc:a", "a.test"⟩, some ⟨"did:plc:a", "a.test"⟩,
        some ⟨"did:plc:b", "b.test"⟩, none]).length ≤ 100 :=
  feed_dedup_amended _ 100 (by decide)

/-- C2: in the action loop, every user contributes to exactly one of the
two counters (`processed + errors = len(users)`), every user is attempted
regardless of earlier failures, and a single per-user failure among the
batch yields `processed = N - 1` and `errors = 1`. -/
theorem action_counts (a : Action) (l : List (UserRec × Bool)) :
    (processUsersLoop a l).processed + (processUsersLoop a l).errors = l.length
    ∧ (∀ pu ∈ l, attemptEv a pu.1 ∈ (processUsersLoop a l).trace)
    ∧ ((l.filter (fun pu => !pu.2)).length = 1 →
        (processUsersLoop a l).processed = l.length - 1
        ∧ (processUsersLoop a l).errors = 1) := by
  refine ⟨processUsersLoop_total a l, processUsersLoop_attempted a l, ?_⟩
  intro h1
  have hc := (processUsersLoop_counts a l).2
  have ht := processUsersLoop_total a l
  have he : (processUsersLoop a l).errors = 1 := by rw [hc, h1]
  exact ⟨by omega, he⟩

/-- C2, witness: three users with the middle one failing give
`processed = 2`, `errors = 1`, and all three attempts appear in the trace. -/
theorem action_counts_witness :
    (processUsersLoop Action.block
        [(⟨"did:plc:1", "u1.test"⟩, true), (⟨"did:plc:2", "u2.test"⟩, false),
         (⟨"did:plc:3", "u3.test"⟩, true)]).processed = 2
    ∧ (processUsersLoop Action.block
        [(⟨"did:plc:1", "u1.test"⟩, true), (⟨"did:plc:2", "u2.test"⟩, false),
         (⟨"did:plc:3", "u3.test"⟩, true)]).errors = 1 := by
  have h := (action_counts Action.block
      [(⟨"did:plc:1", "u1.test"⟩, true), (⟨"did:plc:2", "u2.test"⟩, false),
       (⟨"did:plc:3", "u3.test"⟩, true)]).2.2 (by decide)
  simpa using h

/-- C3, counterexample: `asyncio.sleep(0.5)` sits inside the `try` after
the action call, so a failed attempt skips the pause — with a failing first
user the trace has two adjacent attempt events with no pause between them,
refuting the claim that a pause follows every attempt unconditionally. -/
theorem pause_counterexample :
    (processUsersLoop Action.block
        [(⟨"did:plc:f", "fail.user"⟩, false), (⟨"did:plc:s", "ok.user"⟩, true)]).trace
      = [Event.blockCall "did:plc:f", Event.blockCall "did:plc:s", Event.sleep]
    ∧ noAdjacentAttempts (processUsersLoop Action.block
        [(⟨"did:plc:f", "fail.user"⟩, false),
         (⟨"did:plc:s", "ok.user"⟩, true)]).trace = false := by
  exact ⟨by decide, by decide⟩

/-- C3, amended: the fixed 0.5-time-unit pause runs after each successful
attempt, before the next user; after a failed attempt the loop moves to the
next user immediately, with no pause. -/
theorem pause_after_success (a : Action) (u : UserRec)
    (rest : List (UserRec × Bool)) :
    (processUsersLoop a ((u, true) :: rest)).trace
      = attemptEv a u :: Event.sleep :: (processUsersLoop a rest).trace
    ∧ (processUsersLoop a ((u, false) :: rest)).trace
      = attemptEv a u :: (processUsersLoop a rest).trace := by
  constructor <;> simp [processUsersLoop]

/-- C4, counterexample: the resolver copies the fourth path segment without
percent-decoding it (the imported `unquote` is never called) — a
percent-encoded segment reaches the canonical identifier still encoded,
refuting the claim that the carried name equals the decoded segment. -/
theorem segment_decoding_counterexample :
    convert_url_to_at_uri "https://bsky.app/profile/did:plc:abc/lists/my%20list"
      = ConvertResult.atUri "at://did:plc:abc/app.bsky.graph.list/my%20list"
    ∧ pctDecode "my%20list" = "my list"
    ∧ convert_url_to_at_uri "https://bsky.app/profile/did:plc:abc/lists/my%20list"
      ≠ ConvertResult.atUri
          ("at://did:plc:abc/app.bsky.graph.list/" ++ pctDecode "my%20list") := by
  exact ⟨by decide, by decide, by decide⟩

/-- C4, amended: for every accepted web URL the resource-local name carried
in the resolver result is the fourth non-empty path segment taken verbatim —
no percent-decoding or any other transformation is applied to it. -/
theorem segment_verbatim (url identifier feed_type list_name : String)
    (rest : List String)
    (h0 : startswith url "at://" = false)
    (h1 : (urlparse url).netloc = "bsky.app")
    (h2 : pathParts (urlparse url).path
        = "profile" :: identifier :: feed_type :: list_name :: rest) :
    (feed_type = "feed" →
      convert_url_to_at_uri url =
        if startswith identifier "did:" then
          ConvertResult.atUri (mkAtUri identifier "app.bsky.feed.generator" list_name)
        else ConvertResult.needsResolution identifier list_name "app.bsky.feed.generator")
    ∧ (feed_type = "lists" →
      convert_url_to_at_uri url =
        if startswith identifier "did:" then
          ConvertResult.atUri (mkAtUri identifier "app.bsky.graph.list" list_name)
        else ConvertResult.needsResolution identifier list_name "app.bsky.graph.list") := by
  have hc : convert_url_to_at_uri url = convertParts (pathParts (urlparse url).path) := by
    simp [convert_url_to_at_uri, h0, h1]
  rw [hc, h2, convertParts_cons]
  constructor <;> intro hft <;> subst hft <;> simp

/-- C4, witness for the amended theorem: the percent-encoded fourth segment
is carried into the canonical identifier exactly as written. -/
theorem segment_verbatim_witness :
    convert_url_to_at_uri "https://bsky.app/profile/did:plc:abc/lists/my%20list"
      = ConvertResult.atUri (mkAtUri "did:plc:abc" "app.bsky.graph.list" "my%20list") := by
  have h := (segment_verbatim "https://bsky.app/profile/did:plc:abc/lists/my%20list"
      "did:plc:abc" "lists" "my%20list" [] (by decide) (by decide) (by decide)).2 rfl
  rw [h, if_pos (show (startswith "did:plc:abc" "did:" = true) from by decide)]

/-- C5: an input already carrying the `at://` scheme prefix is returned
unchanged as a native identifier, and every AT URI the resolver ever
returns resolves to itself again — resolution is idempotent on canonical
identifiers. -/
theorem fastpath_idempotent :
    (∀ url, startswith url "at://" = true →
      convert_url_to_at_uri url = ConvertResult.atUri url)
    ∧ (∀ s r, convert_url_to_at_uri s = ConvertResult.atUri r →
      convert_url_to_at_uri r = ConvertResult.atUri r) := by
  constructor
  · intro url h
    simp [convert_url_to_at_uri, h]
  · intro s r h
    have hr := convert_atUri_starts s r h
    simp [convert_url_to_at_uri, hr]

/-- C5, witness: a concrete canonical identifier is returned unchanged. -/
theorem fastpath_idempotent_witness :
    convert_url_to_at_uri "at://did:plc:abc123/app.bsky.graph.list/xyz"
      = ConvertResult.atUri "at://did:plc:abc123/app.bsky.graph.list/xyz" :=
  fastpath_idempotent.1 _ (by decide)

/-- C6: a non-canonical input whose host is not the literal `bsky.app`
fails with the invalid-resource `ValueError`; an input with fewer than four
non-empty path segments, or whose first segment is not `profile`, also
fails with a `ValueError`; and whenever conversion raises, `process_list`
aborts with an empty event trace — no remote call of any kind is made. -/
theorem invalid_inputs_rejected (url : String)
    (h0 : startswith url "at://" = false) :
    ((urlparse url).netloc ≠ "bsky.app" →
      convert_url_to_at_uri url = ConvertResult.valueError "Not a valid Bluesky URL")
    ∧ ((pathParts (urlparse url).path).length < 4 ∨
        (pathParts (urlparse url).path).getD 0 "" ≠ "profile" →
      ∃ msg, convert_url_to_at_uri url = ConvertResult.valueError msg)
    ∧ (∀ msg, convert_url_to_at_uri url = ConvertResult.valueError msg →
      ∀ resolveDid feedResp listResp action dry_run output_file limit outcomes,
        process_list url resolveDid feedResp listResp action dry_run output_file
          limit outcomes = ([], RunResult.aborted msg)) := by
  refine ⟨?_, ?_, ?_⟩
  · intro h1
    simp [convert_url_to_at_uri, h0, h1]
  · intro h2
    by_cases h1 : (urlparse url).netloc = "bsky.app"
    · exact ⟨"Not a valid Bluesky feed URL",
        by simp [convert_url_to_at_uri, h0, h1, convertParts_short _ h2]⟩
    · exact ⟨"Not a valid Bluesky URL", by simp [convert_url_to_at_uri, h0, h1]⟩
  · intro msg hmsg resolveDid feedResp listResp action dry_run output_file limit outcomes
    simp [process_list, hmsg]

/-- C6, witness: a wrong-host URL is rejected and its run makes no call. -/
theorem invalid_inputs_rejected_witness :
    convert_url_to_at_uri "https://example.com/profile/x/feed/y"
      = ConvertResult.valueError "Not a valid Bluesky URL"
    ∧ process_list "https://example.com/profile/x/feed/y" (fun h => h) [] []
        Action.block false "users_to_process.json" 100 (fun _ => true)
      = ([], RunResult.aborted "Not a valid Bluesky URL") := by
  have h := invalid_inputs_rejected "https://example.com/profile/x/feed/y" (by decide)
  have h1 := h.1 (by decide)
  exact ⟨h1, h.2.2 _ h1 _ _ _ _ _ _ _ _⟩

/-- C7: an accepted-shape URL whose third segment is neither `feed` nor
`lists` fails with the unknown-feed-type `ValueError` naming that segment,
whatever the identifier segment is. -/
theorem unknown_family_rejected (url identifier feed_type list_name : String)
    (rest : List String)
    (h0 : startswith url "at://" = false)
    (h1 : (urlparse url).netloc = "bsky.app")
    (h2 : pathParts (urlparse url).path
        = "profile" :: identifier :: feed_type :: list_name :: rest)
    (h3 : feed_type ≠ "feed") (h4 : feed_type ≠ "lists") :
    convert_url_to_at_uri url
      = ConvertResult.valueError ("Unknown feed type: " ++ feed_type) := by
  have hc : convert_url_to_at_uri url = convertParts (pathParts (urlparse url).path) := by
    simp [convert_url_to_at_uri, h0, h1]
  rw [hc, h2, convertParts_cons]
  simp [h3, h4]

/-- C7, witness: segment `posts` is rejected with its name in the message,
for a display-handle identifier. -/
theorem unknown_family_rejected_witness :
    convert_url_to_at_uri "https://bsky.app/profile/alice.example/posts/xyz"
      = ConvertResult.valueError ("Unknown feed type: " ++ "posts") :=
  unknown_family_rejected "https://bsky.app/profile/alice.example/posts/xyz"
    "alice.example" "posts" "xyz" [] (by decide) (by decide) (by decide)
    (by decide) (by decide)

/-- C8: the DID-bearing lists URL resolves directly to the canonical
identifier with no handle-resolution call anywhere in its run, and the
handle-bearing feed URL yields a needs-resolution result carrying the
handle, the name and the feed-generator record type. -/
theorem example_urls_resolved :
    convert_url_to_at_uri "https://bsky.app/profile/did:plc:abc123/lists/xyz"
      = ConvertResult.atUri "at://did:plc:abc123/app.bsky.graph.list/xyz"
    ∧ (∀ resolveDid feedResp listResp action dry_run output_file limit outcomes,
        ∀ e ∈ (process_list "https://bsky.app/profile/did:plc:abc123/lists/xyz"
            resolveDid feedResp listResp action dry_run output_file limit
            outcomes).1, isResolveCall e = false)
    ∧ convert_url_to_at_uri "https://bsky.app/profile/alice.example/feed/abc"
      = ConvertResult.needsResolution "alice.example" "abc" "app.bsky.feed.generator" := by
  have hcv : convert_url_to_at_uri "https://bsky.app/profile/did:plc:abc123/lists/xyz"
      = ConvertResult.atUri "at://did:plc:abc123/app.bsky.graph.list/xyz" := by decide
  refine ⟨hcv, ?_, by decide⟩
  intro resolveDid feedResp listResp action dry_run output_file limit outcomes e he
  rw [process_list, hcv] at he
  exact pipelineFromUri_no_resolve _ _ _ _ _ _ _ _ _ (by simp) e he

/-- C8, witness: the list-read call of the first example's dry run is in
the trace and is not a handle resolution. -/
theorem example_urls_resolved_witness :
    isResolveCall (Event.getListCall "at://did:plc:abc123/app.bsky.graph.list/xyz")
      = false :=
  example_urls_resolved.2.1 (fun h => h) [] [] Action.block true
    "users_to_process.json" 100 (fun _ => true)
    (Event.getListCall "at://did:plc:abc123/app.bsky.graph.list/xyz") (by decide)

/-- C9: under `--dry-run`, for every input whose conversion succeeds, the
run ends with the dry-run early return (no `processed`/`errors` counters),
the output file is written with the enumerated users, and no block or mute
submission event occurs anywhere in the trace. -/
theorem dry_run_frame (list_input : String) (resolveDid : String → String)
    (feedResp : List (Option UserRec)) (listResp : List UserRec)
    (action : Action) (output_file : String) (limit : Nat) (outcomes : Nat → Bool)
    (h : isValueError (convert_url_to_at_uri list_input) = false) :
    (process_list list_input resolveDid feedResp listResp action true output_file
        limit outcomes).2 = RunResult.dryRunDone
    ∧ (∃ users, Event.writeFile output_file users
        ∈ (process_list list_input resolveDid feedResp listResp action true
            output_file limit outcomes).1)
    ∧ ∀ e ∈ (process_list list_input resolveDid feedResp listResp action true
        output_file limit outcomes).1, isActionCall e = false := by
  cases hcv : convert_url_to_at_uri list_input with
  | valueError msg => rw [hcv] at h; simp [isValueError] at h
  | atUri uri =>
    have hp := pipelineFromUri_dry_run uri [] feedResp listResp action
      output_file limit outcomes (by simp)
    rw [process_list, hcv]
    exact ⟨hp.1, ⟨_, hp.2.1⟩, hp.2.2⟩
  | needsResolution handle list_name record_type =>
    have hp := pipelineFromUri_dry_run
      (mkAtUri (resolveDid handle) record_type list_name)
      [Event.resolveHandle handle] feedResp listResp action output_file limit
      outcomes (by simp [isActionCall])
    rw [process_list, hcv]
    exact ⟨hp.1, ⟨_, hp.2.1⟩, hp.2.2⟩

/-- C9, witness: a concrete dry run over a list identifier ends in the
dry-run state. -/
theorem dry_run_frame_witness :
    (process_list "at://did:plc:me/app.bsky.graph.list/mylist" (fun h => h) []
        [⟨"did:plc:t", "t.user"⟩] Action.block true "out.json" 100
        (fun _ => true)).2 = RunResult.dryRunDone :=
  (dry_run_frame "at://did:plc:me/app.bsky.graph.list/mylist" (fun h => h) []
    [⟨"did:plc:t", "t.user"⟩] Action.block "out.json" 100 (fun _ => true)
    (by decide)).1

/-- C10: enumeration dispatch tests only whether the substring
`feed.generator` occurs in the canonical identifier, so a list-family
identifier whose resource-local name contains that substring is enumerated
through the feed path instead of the list path. -/
theorem dispatch_substring :
    (∀ uri, enumDispatchIsFeed uri = containsSubstr uri "feed.generator")
    ∧ (∀ identifier list_name,
        containsSubstr list_name "feed.generator" = true →
        enumDispatchIsFeed (mkAtUri identifier "app.bsky.graph.list" list_name) = true
        ∧ ∀ feedResp listResp,
            enumUsers (mkAtUri identifier "app.bsky.graph.list" list_name)
              feedResp listResp = get_feed_users feedResp) := by
  refine ⟨fun uri => rfl, ?_⟩
  intro identifier list_name h
  have hf : enumDispatchIsFeed (mkAtUri identifier "app.bsky.graph.list" list_name)
      = true := containsSubstr_mkAtUri _ _ _ _ h
  exact ⟨hf, fun feedResp listResp => by simp [enumUsers, hf]⟩

/-- C10, witness: the list identifier whose name is `feed.generator` takes
the feed path. -/
theorem dispatch_substring_witness :
    enumDispatchIsFeed (mkAtUri "did:plc:owner" "app.bsky.graph.list"
      "feed.generator") = true :=
  (dispatch_substring.2 "did:plc:owner" "feed.generator" (by decide)).1

end BlueskyListProcessor
